import Mathlib

/-!
Verification of the atch event emitter (src/index.ts).

The emitter keeps one shared registry, a JavaScript Map from event-type keys
to arrays of handler functions.  We shallowly embed it as follows:

* Keys are strings (the source also admits symbols; the claims only need that
  keys are compared by exact equality, which strings give us).
* Handler functions are identified by natural-number ids, matching the fact
  that JavaScript compares functions by reference in indexOf.  An environment
  maps each id to its behaviour: either a finite list of actions the handler
  performs when invoked (registering, removing, re-entrantly emitting,
  throwing), or a once-wrapper closing over a type key and an inner handler id,
  exactly as the closure built by once does.
* The registry is an association list mirroring JavaScript Map get and set.
* Emitter state also carries an invocation log, one entry per handler call,
  recording the handler id and the arguments the handler received.  This is
  the observation instrumentation for the claims; the source code itself has
  no log.
* Handler invocation is interpreted with a fuel bound on re-entrancy depth;
  every recursive call structurally decreases the fuel, so all definitions
  compute by kernel reduction.
* Throwing is modelled with Except: an error result carries the state at the
  moment of the throw, since in the source an exception propagates to the
  emit caller with all prior effects retained.
-/

namespace Atch

/-- Event-type keys. The wildcard key of the source is the string star. -/
abbrev Key := String

/-- Handler identity: JavaScript compares handler functions by reference. -/
abbrev HId := Nat

/-- Arguments a handler is invoked with: type-specific handlers receive the
payload alone (possibly undefined, hence Option), wildcard-phase handlers
receive the pair of the emitted type and the payload. -/
inductive Args (P : Type) where
  | single : Option P → Args P
  | pair : Key → Option P → Args P
deriving DecidableEq

/-- One primitive effect a handler body may perform when invoked. -/
inductive Act (P : Type) where
  | act_on : Key → HId → Act P
  | act_off : Key → Option HId → Act P
  | act_emit : Key → Option P → Act P
  | act_throw : Act P
deriving DecidableEq

/-- Behaviour of a handler id: a plain handler running a list of actions, or
the wrapper closure created by once, which closes over the type key and the
inner handler and, when invoked, first removes itself and then calls the inner
handler with the arguments it received. -/
inductive HBody (P : Type) where
  | acts : List (Act P) → HBody P
  | wrap : Key → HId → HBody P
deriving DecidableEq

/-- An environment assigns a behaviour to every handler id. -/
abbrev Env (P : Type) := HId → HBody P

/-- True when the action does not mutate the registry. -/
def Act.mutFree {P : Type} : Act P → Bool
  | .act_on _ _ => false
  | .act_off _ _ => false
  | .act_emit _ _ => true
  | .act_throw => true

/-- True when the behaviour never mutates the registry: a once wrapper always
removes itself, so only action lists of registry-neutral actions qualify. -/
def HBody.mutFree {P : Type} : HBody P → Bool
  | .acts l => l.all Act.mutFree
  | .wrap _ _ => false

/-- Emitter state: the shared handler registry (the field named all in the
source) together with the invocation log used to observe dispatch. -/
structure EmitterState (P : Type) where
  all : List (Key × List HId)
  log : List (HId × Args P)
deriving DecidableEq

/-- JavaScript Map.prototype.get over the association-list registry. -/
def mapGet (m : List (Key × List HId)) (k : Key) : Option (List HId) :=
  match m with
  | [] => none
  | (k', v) :: rest => if k' = k then some v else mapGet rest k

/-- JavaScript Map.prototype.set: overwrite the entry in place when the key is
present, otherwise append a new entry. -/
def mapSet (m : List (Key × List HId)) (k : Key) (v : List HId) : List (Key × List HId) :=
  match m with
  | [] => [(k, v)]
  | (k', v') :: rest => if k' = k then (k, v) :: rest else (k', v') :: mapSet rest k v

/-- Index of the first occurrence of a handler in a list, as
Array.prototype.indexOf (some index, or none standing for minus one). -/
def firstIdx (hs : List HId) (h2 : HId) : Option Nat :=
  match hs with
  | [] => none
  | x :: rest => if x = h2 then some 0 else (firstIdx rest h2).map (fun i => i + 1)

/-- The index the source passes to splice: indexOf shifted by unsigned-right-
shift zero, so a missing handler turns minus one into 4294967295. -/
def spliceIndex (hs : List HId) (h2 : HId) : Nat :=
  match firstIdx hs h2 with
  | some i => i
  | none => 4294967295

/-- Removal of one element at an index, as handlers.splice(i, 1): out-of-range
indices remove nothing. -/
def spliceOne : List HId → Nat → List HId
  | [], _ => []
  | _ :: rest, 0 => rest
  | x :: rest, i+1 => x :: spliceOne rest i

/-- The on operation of the source: push onto an existing list, else create a
fresh singleton list for the key. -/
def on' {P : Type} (st : EmitterState P) (type : Key) (handler : HId) : EmitterState P :=
  match mapGet st.all type with
  | some handlers => ⟨mapSet st.all type (handlers ++ [handler]), st.log⟩
  | none => ⟨mapSet st.all type [handler], st.log⟩

/-- The off operation of the source: with a handler, splice out the first
occurrence (splice at 4294967295 when absent); without a handler, replace an
existing list by a new empty one; with no entry for the key, do nothing. -/
def off {P : Type} (st : EmitterState P) (type : Key) (handler : Option HId) : EmitterState P :=
  match mapGet st.all type with
  | some handlers =>
    match handler with
    | some h2 => ⟨mapSet st.all type (spliceOne handlers (spliceIndex handlers h2)), st.log⟩
    | none => ⟨mapSet st.all type [], st.log⟩
  | none => st

/-- The registration once performs: it calls on with the freshly created
wrapper closure, here the wrapper's id, whose behaviour in the environment is
HBody.wrap type inner. -/
def once {P : Type} (st : EmitterState P) (type : Key) (wrapperId : HId) : EmitterState P :=
  Atch.on' st type wrapperId

/-- The de-registration function returned by on: a thunk performing
off(type, handler). -/
def remover {P : Type} (type : Key) (handler : HId) : EmitterState P → EmitterState P :=
  fun st => Atch.off st type (some handler)

/-- Run an invocation callback over a snapshot of a handler list, stopping at
the first thrown exception.  This is the slice-then-iterate of emit: the list
argument is the frozen copy while the state threads through live. -/
def runSnapWith {P : Type} (inv : EmitterState P → HId → Except (EmitterState P) (EmitterState P)) :
    EmitterState P → List HId → Except (EmitterState P) (EmitterState P)
  | st, [] => .ok st
  | st, h2 :: rest =>
    match inv st h2 with
    | .error e => .error e
    | .ok st' => runSnapWith inv st' rest

/-- Type-specific phase of emit: look up the emitted key, snapshot, and invoke
each handler with the payload as its single argument. -/
def typePhase {P : Type} (inv : EmitterState P → HId → Args P → Except (EmitterState P) (EmitterState P))
    (st : EmitterState P) (type : Key) (evt : Option P) : Except (EmitterState P) (EmitterState P) :=
  match mapGet st.all type with
  | some handlers => runSnapWith (fun s h2 => inv s h2 (Args.single evt)) st handlers
  | none => .ok st

/-- Wildcard phase of emit: look up the star key in the registry as it stands
after the type-specific phase, snapshot, and invoke each handler with the
emitted type and the payload. -/
def starPhase {P : Type} (inv : EmitterState P → HId → Args P → Except (EmitterState P) (EmitterState P))
    (st : EmitterState P) (type : Key) (evt : Option P) : Except (EmitterState P) (EmitterState P) :=
  match mapGet st.all "*" with
  | some handlers => runSnapWith (fun s h2 => inv s h2 (Args.pair type evt)) st handlers
  | none => .ok st

/-- The emit operation of the source, parameterized by the handler-invocation
callback: run the type-specific phase, and unless it threw, the wildcard
phase. -/
def emitWith {P : Type} (inv : EmitterState P → HId → Args P → Except (EmitterState P) (EmitterState P))
    (st : EmitterState P) (type : Key) (evt : Option P) : Except (EmitterState P) (EmitterState P) :=
  match typePhase inv st type evt with
  | .error e => .error e
  | .ok st1 => starPhase inv st1 type evt

/-- Run the action list of a handler body, given a callback interpreting
re-entrant emits.  A throw aborts with the state reached so far. -/
def runActsWith {P : Type} (emitF : EmitterState P → Key → Option P → Except (EmitterState P) (EmitterState P)) :
    EmitterState P → List (Act P) → Except (EmitterState P) (EmitterState P)
  | st, [] => .ok st
  | st, a :: rest =>
    match a with
    | .act_on k h2 => runActsWith emitF (Atch.on' st k h2) rest
    | .act_off k h2 => runActsWith emitF (Atch.off st k h2) rest
    | .act_throw => .error st
    | .act_emit k p =>
      match emitF st k p with
      | .error e => .error e
      | .ok st' => runActsWith emitF st' rest

/-- Invoke a handler: record the invocation in the log, then run its body.
A plain body runs its actions, with re-entrant emits interpreted at one less
fuel; the once wrapper first performs off on itself against the live registry
and then invokes the inner handler with the same arguments.  Exhausted fuel
returns the state unchanged (never reached in the theorems below). -/
def invokeH {P : Type} : Nat → Env P → EmitterState P → HId → Args P → Except (EmitterState P) (EmitterState P)
  | 0, _, st, _, _ => .ok st
  | f+1, env, st, hid, args =>
    match env hid with
    | HBody.acts l =>
      runActsWith (fun s k p => emitWith (fun s2 h2 a2 => invokeH f env s2 h2 a2) s k p)
        ⟨st.all, st.log ++ [(hid, args)]⟩ l
    | HBody.wrap k inner =>
      invokeH f env (Atch.off ⟨st.all, st.log ++ [(hid, args)]⟩ k (some hid)) inner args

/-- The emit operation of the source at a given re-entrancy fuel. -/
def emit {P : Type} (f : Nat) (env : Env P) (st : EmitterState P) (type : Key) (evt : Option P) :
    Except (EmitterState P) (EmitterState P) :=
  emitWith (fun s h2 a => invokeH f env s h2 a) st type evt

/-- Registry of the state an emission ended in, whether it returned or threw. -/
def regOf {P : Type} : Except (EmitterState P) (EmitterState P) → List (Key × List HId)
  | .ok s => s.all
  | .error s => s.all

/-- Invocation log of the state an emission ended in. -/
def logOf {P : Type} : Except (EmitterState P) (EmitterState P) → List (HId × Args P)
  | .ok s => s.log
  | .error s => s.log

/-- An environment of pure observers: every handler does nothing but get
logged. -/
def InertEnv {P : Type} (env : Env P) : Prop :=
  ∀ i, env i = HBody.acts []

/-- An environment none of whose handlers mutates the registry (they may
re-entrantly emit or throw). -/
def NonMutEnv {P : Type} (env : Env P) : Prop :=
  ∀ i, (env i).mutFree = true

/-- Registering a list of handlers in order under one key via on. -/
def regAll {P : Type} (st : EmitterState P) (type : Key) (hl : List HId) : EmitterState P :=
  hl.foldl (fun s h2 => Atch.on' s type h2) st

/-- Log entries contributed by one dispatch phase over an optional handler
list, every handler receiving the same arguments. -/
def phaseLog {P : Type} (o : Option (List HId)) (a : Args P) : List (HId × Args P) :=
  match o with
  | none => []
  | some l => l.map (fun h2 => (h2, a))

/-- Reading back the key just set yields the value just set. -/
theorem mapGet_mapSet_self (m : List (Key × List HId)) (k : Key) (v : List HId) :
    mapGet (mapSet m k v) k = some v := by
  induction m with
  | nil => simp [mapGet, mapSet]
  | cons e rest ih =>
    obtain ⟨k', v'⟩ := e
    by_cases h : k' = k
    · simp [mapGet, mapSet, h]
    · simp [mapGet, mapSet, h, ih]

/-- Setting one key leaves lookups of any other key unchanged. -/
theorem mapGet_mapSet_ne (m : List (Key × List HId)) (k k' : Key) (v : List HId)
    (h : k' ≠ k) : mapGet (mapSet m k' v) k = mapGet m k := by
  induction m with
  | nil => simp [mapGet, mapSet, h]
  | cons e rest ih =>
    obtain ⟨k0, v0⟩ := e
    by_cases h0 : k0 = k'
    · subst h0
      simp [mapGet, mapSet, h]
    · simp [mapGet, mapSet, h0, ih]

/-- Two consecutive sets at the same key collapse to the last one. -/
theorem mapSet_mapSet (m : List (Key × List HId)) (k : Key) (v w : List HId) :
    mapSet (mapSet m k v) k w = mapSet m k w := by
  induction m with
  | nil => simp [mapSet]
  | cons e rest ih =>
    obtain ⟨k0, v0⟩ := e
    by_cases h0 : k0 = k
    · simp [mapSet, h0]
    · simp [mapSet, h0, ih]

/-- Setting a key to the value it already holds is the identity. -/
theorem mapSet_eq_of_get (m : List (Key × List HId)) (k : Key) (v : List HId)
    (h : mapGet m k = some v) : mapSet m k v = m := by
  induction m with
  | nil => simp [mapGet] at h
  | cons e rest ih =>
    obtain ⟨k0, v0⟩ := e
    by_cases h0 : k0 = k
    · subst h0
      simp [mapGet] at h
      simp [mapSet, h]
    · simp [mapGet, h0] at h
      simp [mapSet, h0, ih h]

/-- A handler absent from the list has no first index. -/
theorem firstIdx_of_not_mem (hs : List HId) (h2 : HId) (h : h2 ∉ hs) :
    firstIdx hs h2 = none := by
  induction hs with
  | nil => rfl
  | cons x rest ih =>
    simp only [List.mem_cons, not_or] at h
    simp [firstIdx, Ne.symm h.1, ih h.2]

/-- The first index of a handler sitting after a prefix that avoids it is the
length of that prefix. -/
theorem firstIdx_append (pre post : List HId) (h2 : HId) (h : h2 ∉ pre) :
    firstIdx (pre ++ h2 :: post) h2 = some pre.length := by
  induction pre with
  | nil => simp [firstIdx]
  | cons x rest ih =>
    simp only [List.mem_cons, not_or] at h
    simp [firstIdx, Ne.symm h.1, ih h.2]

/-- Splicing at an index no smaller than the length removes nothing. -/
theorem spliceOne_of_len_le (hs : List HId) (i : Nat) (h : hs.length ≤ i) :
    spliceOne hs i = hs := by
  induction hs generalizing i with
  | nil => rfl
  | cons x rest ih =>
    match i with
    | 0 => simp at h
    | j+1 =>
      simp only [List.length_cons, Nat.add_le_add_iff_right] at h
      simp [spliceOne, ih j h]

/-- Splicing at the length of the prefix removes exactly the element there. -/
theorem spliceOne_append (pre post : List HId) (x : HId) :
    spliceOne (pre ++ x :: post) pre.length = pre ++ post := by
  induction pre with
  | nil => rfl
  | cons y rest ih => simp [spliceOne, ih]

/-- Evaluation of on when the key already has a list: push on its end. -/
theorem on_some {P : Type} (st : EmitterState P) (k : Key) (h2 : HId) (hs : List HId)
    (h : mapGet st.all k = some hs) :
    Atch.on' st k h2 = ⟨mapSet st.all k (hs ++ [h2]), st.log⟩ := by
  simp [Atch.on', h]

/-- Evaluation of on when the key has no list yet: create a singleton. -/
theorem on_none {P : Type} (st : EmitterState P) (k : Key) (h2 : HId)
    (h : mapGet st.all k = none) :
    Atch.on' st k h2 = ⟨mapSet st.all k [h2], st.log⟩ := by
  simp [Atch.on', h]

/-- Evaluation of off when the key has no entry: nothing happens, with or
without a handler argument. -/
theorem off_no_entry {P : Type} (st : EmitterState P) (k : Key) (ho : Option HId)
    (h : mapGet st.all k = none) : Atch.off st k ho = st := by
  simp [Atch.off, h]

/-- Evaluation of off with an omitted handler on an existing list: the list is
replaced by a new empty one. -/
theorem off_clear {P : Type} (st : EmitterState P) (k : Key) (hs : List HId)
    (h : mapGet st.all k = some hs) :
    Atch.off st k none = ⟨mapSet st.all k [], st.log⟩ := by
  simp [Atch.off, h]

/-- Evaluation of off on a list containing the handler: exactly the first
occurrence is removed. -/
theorem off_first_occ {P : Type} (st : EmitterState P) (k : Key) (h2 : HId)
    (pre post : List HId) (hget : mapGet st.all k = some (pre ++ h2 :: post))
    (hpre : h2 ∉ pre) :
    Atch.off st k (some h2) = ⟨mapSet st.all k (pre ++ post), st.log⟩ := by
  simp [Atch.off, hget, spliceIndex, firstIdx_append pre post h2 hpre,
    spliceOne_append]

/-- Evaluation of off on a list not containing the handler: a no-op, because
the splice happens at index 4294967295 (within the length bound JavaScript
arrays obey). -/
theorem off_not_found {P : Type} (st : EmitterState P) (k : Key) (h2 : HId)
    (hs : List HId) (hget : mapGet st.all k = some hs) (hmem : h2 ∉ hs)
    (hlen : hs.length ≤ 4294967295) :
    Atch.off st k (some h2) = st := by
  simp [Atch.off, hget, spliceIndex, firstIdx_of_not_mem hs h2 hmem,
    spliceOne_of_len_le hs 4294967295 hlen, mapSet_eq_of_get st.all k hs hget]

/-- Invoking a handler whose body is an action list: log the call, then run
the actions with re-entrant emits at one less fuel. -/
theorem invokeH_acts {P : Type} (f : Nat) (env : Env P) (st : EmitterState P)
    (hid : HId) (args : Args P) (l : List (Act P)) (h : env hid = HBody.acts l) :
    invokeH (f+1) env st hid args =
      runActsWith (fun s k p => emitWith (fun s2 h2 a2 => invokeH f env s2 h2 a2) s k p)
        ⟨st.all, st.log ++ [(hid, args)]⟩ l := by
  simp [invokeH, h]

/-- Invoking a once wrapper: log the call, remove the wrapper from the live
registry, then invoke the inner handler with the same arguments. -/
theorem invokeH_wrap {P : Type} (f : Nat) (env : Env P) (st : EmitterState P)
    (hid : HId) (args : Args P) (k : Key) (inner : HId) (h : env hid = HBody.wrap k inner) :
    invokeH (f+1) env st hid args =
      invokeH f env (Atch.off ⟨st.all, st.log ++ [(hid, args)]⟩ k (some hid)) inner args := by
  simp [invokeH, h]

/-- Invoking a pure observer just appends its log entry. -/
theorem invokeH_inert {P : Type} (f : Nat) (env : Env P) (st : EmitterState P)
    (hid : HId) (args : Args P) (h : env hid = HBody.acts []) :
    invokeH (f+1) env st hid args = .ok ⟨st.all, st.log ++ [(hid, args)]⟩ := by
  rw [invokeH_acts f env st hid args [] h]
  rfl

/-- A snapshot of pure observers dispatches them all in order, each appending
one log entry with the phase arguments, and leaves the registry unchanged. -/
theorem runSnapWith_inert {P : Type} (f : Nat) (env : Env P) (args : Args P)
    (l : List HId) (st : EmitterState P) (h : ∀ h2 ∈ l, env h2 = HBody.acts []) :
    runSnapWith (fun s h2 => invokeH (f+1) env s h2 args) st l =
      .ok ⟨st.all, st.log ++ l.map (fun h2 => (h2, args))⟩ := by
  induction l generalizing st with
  | nil => simp [runSnapWith]
  | cons x rest ih =>
    have hx : env x = HBody.acts [] := h x (List.mem_cons_self x rest)
    have hrest : ∀ h2 ∈ rest, env h2 = HBody.acts [] :=
      fun h2 hm => h h2 (List.mem_cons_of_mem x hm)
    simp only [runSnapWith, invokeH_inert f env st x args hx]
    rw [ih ⟨st.all, st.log ++ [(x, args)]⟩ hrest]
    simp

/-- Type-specific phase over pure observers: one log entry per registered
handler, in order, each with the payload as single argument. -/
theorem typePhase_inert {P : Type} (f : Nat) (env : Env P) (st : EmitterState P)
    (k : Key) (p : Option P) (h : InertEnv env) :
    typePhase (fun s h2 a => invokeH (f+1) env s h2 a) st k p =
      .ok ⟨st.all, st.log ++ phaseLog (mapGet st.all k) (Args.single p)⟩ := by
  cases hk : mapGet st.all k with
  | none =>
    unfold typePhase
    rw [hk]
    simp [phaseLog]
  | some ts =>
    unfold typePhase
    rw [hk]
    exact runSnapWith_inert f env (Args.single p) ts st (fun h2 _ => h h2)

/-- Wildcard phase over pure observers: one log entry per star handler, in
order, each receiving the emitted type and the payload. -/
theorem starPhase_inert {P : Type} (f : Nat) (env : Env P) (st : EmitterState P)
    (k : Key) (p : Option P) (h : InertEnv env) :
    starPhase (fun s h2 a => invokeH (f+1) env s h2 a) st k p =
      .ok ⟨st.all, st.log ++ phaseLog (mapGet st.all "*") (Args.pair k p)⟩ := by
  cases hw : mapGet st.all "*" with
  | none =>
    unfold starPhase
    rw [hw]
    simp [phaseLog]
  | some ws =>
    unfold starPhase
    rw [hw]
    exact runSnapWith_inert f env (Args.pair k p) ws st (fun h2 _ => h h2)

/-- Emission in an environment of pure observers: first every handler under
the emitted key in order with the payload alone, then every handler under the
star key in order with type and payload; the registry never changes. -/
theorem emit_inert {P : Type} (f : Nat) (env : Env P) (st : EmitterState P)
    (k : Key) (p : Option P) (h : InertEnv env) :
    emit (f+1) env st k p =
      .ok ⟨st.all, st.log ++ phaseLog (mapGet st.all k) (Args.single p)
        ++ phaseLog (mapGet st.all "*") (Args.pair k p)⟩ := by
  have ht := typePhase_inert f env st k p h
  have hs := starPhase_inert f env
    ⟨st.all, st.log ++ phaseLog (mapGet st.all k) (Args.single p)⟩ k p h
  calc emit (f+1) env st k p
      = starPhase (fun s h2 a => invokeH (f+1) env s h2 a)
          ⟨st.all, st.log ++ phaseLog (mapGet st.all k) (Args.single p)⟩ k p := by
        unfold emit emitWith
        rw [ht]
    _ = .ok ⟨st.all, st.log ++ phaseLog (mapGet st.all k) (Args.single p)
          ++ phaseLog (mapGet st.all "*") (Args.pair k p)⟩ := hs

/-- Folding on over further handlers extends an existing list in order. -/
theorem regAll_some {P : Type} (k : Key) (hl : List HId) (st : EmitterState P)
    (hs : List HId) (h : mapGet st.all k = some hs) :
    regAll st k hl = ⟨mapSet st.all k (hs ++ hl), st.log⟩ := by
  induction hl generalizing st hs with
  | nil =>
    simp only [regAll, List.foldl_nil, List.append_nil]
    rw [mapSet_eq_of_get st.all k hs h]
  | cons x t ih =>
    have hstep : Atch.on' st k x = ⟨mapSet st.all k (hs ++ [x]), st.log⟩ := on_some st k x hs h
    have hget : mapGet (mapSet st.all k (hs ++ [x])) k = some (hs ++ [x]) :=
      mapGet_mapSet_self st.all k (hs ++ [x])
    calc regAll st k (x :: t)
        = regAll (Atch.on' st k x) k t := by simp [regAll, List.foldl_cons]
      _ = regAll (⟨mapSet st.all k (hs ++ [x]), st.log⟩ : EmitterState P) k t := by rw [hstep]
      _ = ⟨mapSet (mapSet st.all k (hs ++ [x])) k ((hs ++ [x]) ++ t), st.log⟩ :=
          ih ⟨mapSet st.all k (hs ++ [x]), st.log⟩ (hs ++ [x]) hget
      _ = ⟨mapSet st.all k (hs ++ x :: t), st.log⟩ := by
          rw [mapSet_mapSet]
          simp

/-- Folding on over a nonempty handler list starting from a key with no entry
creates exactly that list. -/
theorem regAll_none {P : Type} (k : Key) (x : HId) (t : List HId) (st : EmitterState P)
    (h : mapGet st.all k = none) :
    regAll st k (x :: t) = ⟨mapSet st.all k (x :: t), st.log⟩ := by
  have hstep : Atch.on' st k x = ⟨mapSet st.all k [x], st.log⟩ := on_none st k x h
  have hget : mapGet (mapSet st.all k [x]) k = some [x] := mapGet_mapSet_self st.all k [x]
  calc regAll st k (x :: t)
      = regAll (Atch.on' st k x) k t := by simp [regAll, List.foldl_cons]
    _ = regAll (⟨mapSet st.all k [x], st.log⟩ : EmitterState P) k t := by rw [hstep]
    _ = ⟨mapSet (mapSet st.all k [x]) k ([x] ++ t), st.log⟩ :=
        regAll_some k t ⟨mapSet st.all k [x], st.log⟩ [x] hget
    _ = ⟨mapSet st.all k (x :: t), st.log⟩ := by
        rw [mapSet_mapSet]
        simp

/-- C1: registering handlers h1..hn in order under a type via on and then
emitting that type invokes each registered handler exactly once, in
registration order, each receiving the payload; handlers are modelled as pure
observers, the emitted key is fresh and not the wildcard, and no wildcard
handlers are present. -/
theorem atch_c1 {P : Type} (f : Nat) (env : Env P) (st : EmitterState P) (k : Key)
    (hl : List HId) (p : Option P) (h1 : InertEnv env) (h2 : k ≠ "*")
    (h3 : mapGet st.all k = none) (h4 : mapGet st.all "*" = none) :
    emit (f+1) env (regAll st k hl) k p =
      .ok ⟨(regAll st k hl).all, st.log ++ hl.map (fun h5 => (h5, Args.single p))⟩ := by
  cases hl with
  | nil =>
    have : regAll st k ([] : List HId) = st := rfl
    rw [this, emit_inert f env st k p h1, h3, h4]
    simp [phaseLog]
  | cons x t =>
    rw [regAll_none k x t st h3]
    rw [emit_inert f env ⟨mapSet st.all k (x :: t), st.log⟩ k p h1]
    have hget : mapGet (mapSet st.all k (x :: t)) k = some (x :: t) :=
      mapGet_mapSet_self st.all k (x :: t)
    have hstar : mapGet (mapSet st.all k (x :: t)) "*" = none := by
      rw [mapGet_mapSet_ne st.all "*" k (x :: t) h2]
      exact h4
    rw [hget, hstar]
    simp [phaseLog]

/-- Shared inert environment over natural-number payloads, for witnesses. -/
def inertE : Env Nat := fun _ => HBody.acts []

/-- The shared witness environment is indeed inert. -/
theorem inertE_inert : InertEnv inertE := fun _ => rfl

/-- Witness for C1 at a concrete input: two handlers registered under key a
and an emission with payload nine. -/
theorem atch_c1_witness :
    emit 1 inertE (regAll (⟨[], []⟩ : EmitterState Nat) "a" [4, 5]) "a" (some 9) =
      .ok ⟨[("a", [4, 5])], [(4, Args.single (some 9)), (5, Args.single (some 9))]⟩ :=
  atch_c1 0 inertE ⟨[], []⟩ "a" [4, 5] (some 9) inertE_inert (by decide) rfl rfl

/-- C7: on emission of a non-wildcard key, every registered wildcard handler
is invoked with the emitted type and the payload as two arguments, and all of
them run after every type-specific handler of that emission. -/
theorem atch_c7 {P : Type} (f : Nat) (env : Env P) (st : EmitterState P) (k : Key)
    (p : Option P) (ts ws : List HId) (h1 : InertEnv env) (h2 : k ≠ "*")
    (h3 : mapGet st.all k = some ts) (h4 : mapGet st.all "*" = some ws) :
    emit (f+1) env st k p =
      .ok ⟨st.all, st.log ++ ts.map (fun h5 => (h5, Args.single p))
        ++ ws.map (fun w => (w, Args.pair k p))⟩ := by
  rw [emit_inert f env st k p h1, h3, h4]
  simp [phaseLog]

/-- Witness for C7 at a concrete input: one type-specific handler and one
wildcard handler. -/
theorem atch_c7_witness :
    emit 1 inertE (⟨[("a", [1]), ("*", [2])], []⟩ : EmitterState Nat) "a" (some 3) =
      .ok ⟨[("a", [1]), ("*", [2])], [(1, Args.single (some 3)), (2, Args.pair "a" (some 3))]⟩ :=
  atch_c7 0 inertE ⟨[("a", [1]), ("*", [2])], []⟩ "a" (some 3) [1] [2]
    inertE_inert (by decide) rfl rfl

/-- C10: emitting the wildcard key itself invokes every wildcard handler twice
in the one emission: first in the type-specific phase with the payload as its
only argument, then in the wildcard phase with the star key and the payload. -/
theorem atch_c10 {P : Type} (f : Nat) (env : Env P) (st : EmitterState P)
    (p : Option P) (ws : List HId) (h1 : InertEnv env)
    (h2 : mapGet st.all "*" = some ws) :
    emit (f+1) env st "*" p =
      .ok ⟨st.all, st.log ++ ws.map (fun w => (w, Args.single p))
        ++ ws.map (fun w => (w, Args.pair "*" p))⟩ := by
  rw [emit_inert f env st "*" p h1, h2]
  simp [phaseLog]

/-- Witness for C10 at a concrete input: a single wildcard handler fires once
with the payload alone and once with the star key and payload. -/
theorem atch_c10_witness :
    emit 1 inertE (⟨[("*", [7])], []⟩ : EmitterState Nat) "*" (some 3) =
      .ok ⟨[("*", [7])], [(7, Args.single (some 3)), (7, Args.pair "*" (some 3))]⟩ :=
  atch_c10 0 inertE ⟨[("*", [7])], []⟩ (some 3) [7] inertE_inert rfl

/-- C3 counterexample: with no entry for the key, off with the handler omitted
does not create an empty list entry; the call leaves the registry without any
entry for that key, contradicting the claim that an explicit empty list entry
is created. -/
theorem atch_c3_counterexample :
    Atch.off (⟨[], []⟩ : EmitterState Nat) "foo" none = (⟨[], []⟩ : EmitterState Nat) ∧
    mapGet (Atch.off (⟨[], []⟩ : EmitterState Nat) "foo" none).all "foo" = none := by
  exact ⟨rfl, rfl⟩

/-- C3 amended: off with the handler omitted replaces an existing list for the
type, even an already-empty one, with a new empty list; when the type has no
entry at all, the call is a no-op and no entry is created. -/
theorem atch_c3_amended {P : Type} (st : EmitterState P) (k : Key) :
    (∀ hs, mapGet st.all k = some hs → Atch.off st k none = ⟨mapSet st.all k [], st.log⟩) ∧
    (mapGet st.all k = none → Atch.off st k none = st) := by
  constructor
  · intro hs h
    exact off_clear st k hs h
  · intro h
    exact off_no_entry st k none h

/-- Witness for C3 amended at a concrete input: an existing two-element list
is replaced by an empty one. -/
theorem atch_c3_witness :
    Atch.off (⟨[("f", [1, 2])], []⟩ : EmitterState Nat) "f" none =
      (⟨[("f", [])], []⟩ : EmitterState Nat) :=
  (atch_c3_amended (⟨[("f", [1, 2])], []⟩ : EmitterState Nat) "f").1 [1, 2] rfl

/-- C4 counterexample: register the same handler twice under one key, then
invoke the remover of the first registration twice.  The claim says the second
invocation finds nothing to remove and no-ops; in fact it removes the second
copy as well, so the second call changes the state and the list ends empty. -/
theorem atch_c4_counterexample :
    remover "f" 7 (remover "f" 7 (Atch.on' (Atch.on' (⟨[], []⟩ : EmitterState Nat) "f" 7) "f" 7)) ≠
      remover "f" 7 (Atch.on' (Atch.on' (⟨[], []⟩ : EmitterState Nat) "f" 7) "f" 7) ∧
    mapGet (remover "f" 7 (remover "f" 7
      (Atch.on' (Atch.on' (⟨[], []⟩ : EmitterState Nat) "f" 7) "f" 7))).all "f" = some [] := by
  exact ⟨by decide, rfl⟩

/-- C4 amended: the remover returned by on performs off of that type and
handler each time it is invoked: it removes the first remaining occurrence of
the handler; a call finding no occurrence is a no-op (within the JavaScript
array length bound), and invoked right after a registration of a handler not
otherwise present it undoes exactly that registration; with duplicate
registrations a repeated call removes a further occurrence rather than
no-opping. -/
theorem atch_c4_amended {P : Type} (st : EmitterState P) (k : Key) (h2 : HId) :
    (mapGet st.all k = none → remover k h2 st = st) ∧
    (∀ hs, mapGet st.all k = some hs → h2 ∉ hs → hs.length ≤ 4294967295 →
      remover k h2 st = st) ∧
    (∀ hs, mapGet st.all k = some hs → h2 ∉ hs →
      remover k h2 (Atch.on' st k h2) = st) ∧
    (∀ pre post, mapGet st.all k = some (pre ++ h2 :: post) → h2 ∉ pre →
      remover k h2 st = ⟨mapSet st.all k (pre ++ post), st.log⟩) := by
  refine ⟨?_, ?_, ?_, ?_⟩
  · intro h
    exact off_no_entry st k (some h2) h
  · intro hs hget hmem hlen
    exact off_not_found st k h2 hs hget hmem hlen
  · intro hs hget hmem
    have hon : Atch.on' st k h2 = ⟨mapSet st.all k (hs ++ [h2]), st.log⟩ :=
      on_some st k h2 hs hget
    rw [hon]
    simp only [remover]
    have hget2 : mapGet (mapSet st.all k (hs ++ [h2])) k = some (hs ++ [h2]) :=
      mapGet_mapSet_self st.all k (hs ++ [h2])
    have hoff := off_first_occ (⟨mapSet st.all k (hs ++ [h2]), st.log⟩ : EmitterState P)
      k h2 hs [] (by simpa using hget2) hmem
    rw [hoff]
    simp only [List.append_nil, mapSet_mapSet]
    rw [mapSet_eq_of_get st.all k hs hget]
  · intro pre post hget hpre
    exact off_first_occ st k h2 pre post hget hpre

/-- Witness for C4 amended at a concrete input: against a registry holding an
unrelated handler, registering handler seven and invoking the remover restores
the original state. -/
theorem atch_c4_witness :
    remover "f" 7 (Atch.on' (⟨[("f", [3])], []⟩ : EmitterState Nat) "f" 7) =
      (⟨[("f", [3])], []⟩ : EmitterState Nat) :=
  (atch_c4_amended (⟨[("f", [3])], []⟩ : EmitterState Nat) "f" 7).2.2.1 [3] rfl (by decide)

/-- C5: off with a handler removes exactly the first occurrence of that
handler from the list for the type; when the handler is absent the call is a
no-op (within the JavaScript array length bound); a repeated call removes the
next occurrence when the handler was registered more than once; and a list
emptied this way remains present as an empty list rather than being deleted. -/
theorem atch_c5 {P : Type} (st : EmitterState P) (k : Key) (h2 : HId) :
    (∀ pre post, mapGet st.all k = some (pre ++ h2 :: post) → h2 ∉ pre →
      Atch.off st k (some h2) = ⟨mapSet st.all k (pre ++ post), st.log⟩) ∧
    (∀ hs, mapGet st.all k = some hs → h2 ∉ hs → hs.length ≤ 4294967295 →
      Atch.off st k (some h2) = st) ∧
    (∀ pre mid post, mapGet st.all k = some (pre ++ h2 :: (mid ++ h2 :: post)) →
      h2 ∉ pre → h2 ∉ mid →
      Atch.off (Atch.off st k (some h2)) k (some h2) =
        ⟨mapSet st.all k (pre ++ (mid ++ post)), st.log⟩) ∧
    (mapGet st.all k = some [h2] →
      mapGet (Atch.off st k (some h2)).all k = some []) := by
  refine ⟨?_, ?_, ?_, ?_⟩
  · intro pre post hget hpre
    exact off_first_occ st k h2 pre post hget hpre
  · intro hs hget hmem hlen
    exact off_not_found st k h2 hs hget hmem hlen
  · intro pre mid post hget hpre hmid
    have h1 := off_first_occ st k h2 pre (mid ++ h2 :: post) hget hpre
    rw [h1]
    have hget2 : mapGet (mapSet st.all k (pre ++ (mid ++ h2 :: post))) k =
        some ((pre ++ mid) ++ h2 :: post) := by
      rw [mapGet_mapSet_self]
      simp
    have hmem2 : h2 ∉ pre ++ mid := by
      simp [List.mem_append]
      exact ⟨hpre, hmid⟩
    have h3 := off_first_occ (⟨mapSet st.all k (pre ++ (mid ++ h2 :: post)), st.log⟩ : EmitterState P)
      k h2 (pre ++ mid) post (by simpa using hget2) hmem2
    rw [h3]
    simp only [mapSet_mapSet]
    congr 1
    simp
  · intro hget
    have h1 := off_first_occ st k h2 [] [] (by simpa using hget) (by simp)
    rw [h1]
    simp [mapGet_mapSet_self]

/-- Witness for C5 at a concrete input: removing handler seven from a list
where it occurs twice removes only the first copy, and removing it from a
singleton list leaves an explicit empty list. -/
theorem atch_c5_witness :
    Atch.off (⟨[("f", [3, 7, 7])], []⟩ : EmitterState Nat) "f" (some 7) =
      (⟨[("f", [3, 7])], []⟩ : EmitterState Nat) :=
  (atch_c5 (⟨[("f", [3, 7, 7])], []⟩ : EmitterState Nat) "f" 7).1 [3] [7] rfl (by decide)

/-- Snapshot iteration step: a throwing invocation aborts the iteration. -/
theorem runSnapWith_cons_err {P : Type}
    (inv : EmitterState P → HId → Except (EmitterState P) (EmitterState P))
    (st : EmitterState P) (h2 : HId) (e : EmitterState P) (rest : List HId)
    (h : inv st h2 = .error e) : runSnapWith inv st (h2 :: rest) = .error e := by
  simp [runSnapWith, h]

/-- Snapshot iteration step: a returning invocation threads its state on. -/
theorem runSnapWith_cons_ok {P : Type}
    (inv : EmitterState P → HId → Except (EmitterState P) (EmitterState P))
    (st : EmitterState P) (h2 : HId) (s' : EmitterState P) (rest : List HId)
    (h : inv st h2 = .ok s') : runSnapWith inv st (h2 :: rest) = runSnapWith inv s' rest := by
  simp [runSnapWith, h]

/-- Type phase over a key with no entry: nothing runs. -/
theorem typePhase_none {P : Type}
    (inv : EmitterState P → HId → Args P → Except (EmitterState P) (EmitterState P))
    (st : EmitterState P) (k : Key) (p : Option P) (h : mapGet st.all k = none) :
    typePhase inv st k p = .ok st := by
  simp [typePhase, h]

/-- Type phase over an existing list: iterate its snapshot with the payload as
single argument. -/
theorem typePhase_some {P : Type}
    (inv : EmitterState P → HId → Args P → Except (EmitterState P) (EmitterState P))
    (st : EmitterState P) (k : Key) (p : Option P) (hs : List HId)
    (h : mapGet st.all k = some hs) :
    typePhase inv st k p = runSnapWith (fun s h2 => inv s h2 (Args.single p)) st hs := by
  simp [typePhase, h]

/-- Wildcard phase with no star entry: nothing runs. -/
theorem starPhase_none {P : Type}
    (inv : EmitterState P → HId → Args P → Except (EmitterState P) (EmitterState P))
    (st : EmitterState P) (k : Key) (p : Option P) (h : mapGet st.all "*" = none) :
    starPhase inv st k p = .ok st := by
  simp [starPhase, h]

/-- Wildcard phase over an existing star list: iterate its snapshot with type
and payload. -/
theorem starPhase_some {P : Type}
    (inv : EmitterState P → HId → Args P → Except (EmitterState P) (EmitterState P))
    (st : EmitterState P) (k : Key) (p : Option P) (ws : List HId)
    (h : mapGet st.all "*" = some ws) :
    starPhase inv st k p = runSnapWith (fun s h2 => inv s h2 (Args.pair k p)) st ws := by
  simp [starPhase, h]

/-- Emission step: a throw in the type phase propagates and skips the wildcard
phase. -/
theorem emitWith_err {P : Type}
    (inv : EmitterState P → HId → Args P → Except (EmitterState P) (EmitterState P))
    (st : EmitterState P) (k : Key) (p : Option P) (e : EmitterState P)
    (h : typePhase inv st k p = .error e) : emitWith inv st k p = .error e := by
  simp [emitWith, h]

/-- Emission step: a completed type phase hands its state to the wildcard
phase. -/
theorem emitWith_ok {P : Type}
    (inv : EmitterState P → HId → Args P → Except (EmitterState P) (EmitterState P))
    (st : EmitterState P) (k : Key) (p : Option P) (st1 : EmitterState P)
    (h : typePhase inv st k p = .ok st1) : emitWith inv st k p = starPhase inv st1 k p := by
  simp [emitWith, h]

/-- Action step: a re-entrant emit that returns threads its state on. -/
theorem runActsWith_emit_ok {P : Type}
    (emitF : EmitterState P → Key → Option P → Except (EmitterState P) (EmitterState P))
    (st : EmitterState P) (k : Key) (p : Option P) (s' : EmitterState P) (rest : List (Act P))
    (h : emitF st k p = .ok s') :
    runActsWith emitF st (Act.act_emit k p :: rest) = runActsWith emitF s' rest := by
  simp [runActsWith, h]

/-- Action step: a re-entrant emit that throws aborts the remaining actions. -/
theorem runActsWith_emit_err {P : Type}
    (emitF : EmitterState P → Key → Option P → Except (EmitterState P) (EmitterState P))
    (st : EmitterState P) (k : Key) (p : Option P) (e : EmitterState P) (rest : List (Act P))
    (h : emitF st k p = .error e) :
    runActsWith emitF st (Act.act_emit k p :: rest) = .error e := by
  simp [runActsWith, h]

/-- Invoking a handler whose body throws immediately: the invocation is
logged, then the exception is raised with the state kept. -/
theorem invokeH_throw {P : Type} (f : Nat) (env : Env P) (st : EmitterState P)
    (hid : HId) (args : Args P) (h : env hid = HBody.acts [Act.act_throw]) :
    invokeH (f+1) env st hid args = .error ⟨st.all, st.log ++ [(hid, args)]⟩ := by
  rw [invokeH_acts f env st hid args [Act.act_throw] h]
  rfl

/-- A snapshot of pure observers followed by a thrower: the observers run and
log in order, the thrower logs and raises, everything after it is skipped and
the registry is untouched. -/
theorem runSnapWith_inert_throw {P : Type} (f : Nat) (env : Env P) (args : Args P)
    (pre : List HId) (t : HId) (post : List HId)
    (hpre : ∀ h2 ∈ pre, env h2 = HBody.acts [])
    (ht : env t = HBody.acts [Act.act_throw]) :
    ∀ st : EmitterState P,
      runSnapWith (fun s h2 => invokeH (f+1) env s h2 args) st (pre ++ t :: post) =
        .error ⟨st.all, st.log ++ pre.map (fun h2 => (h2, args)) ++ [(t, args)]⟩ := by
  induction pre with
  | nil =>
    intro st
    rw [List.nil_append]
    rw [runSnapWith_cons_err _ st t _ post (invokeH_throw f env st t args ht)]
    simp
  | cons x rest ih =>
    intro st
    have hx : env x = HBody.acts [] := hpre x (List.mem_cons_self x rest)
    have hrest : ∀ h2 ∈ rest, env h2 = HBody.acts [] :=
      fun h2 hm => hpre h2 (List.mem_cons_of_mem x hm)
    rw [List.cons_append]
    rw [runSnapWith_cons_ok _ st x _ _ (invokeH_inert f env st x args hx)]
    rw [ih hrest ⟨st.all, st.log ++ [(x, args)]⟩]
    simp

/-- C8: when a handler throws during emission, the exception aborts the rest
of that emission and propagates to the emit caller: the handlers before it in
the snapshot have run and keep their effect (their log entries), while the
handlers after it in the snapshot and all wildcard handlers never run, and the
registry is left as it was. -/
theorem atch_c8 {P : Type} (f : Nat) (env : Env P) (st : EmitterState P) (k : Key)
    (p : Option P) (pre : List HId) (t : HId) (post : List HId)
    (h1 : ∀ h2 ∈ pre, env h2 = HBody.acts [])
    (h2 : env t = HBody.acts [Act.act_throw])
    (h3 : mapGet st.all k = some (pre ++ t :: post)) :
    emit (f+1) env st k p =
      .error ⟨st.all, st.log ++ pre.map (fun h4 => (h4, Args.single p)) ++ [(t, Args.single p)]⟩ := by
  have hty : typePhase (fun s h4 a => invokeH (f+1) env s h4 a) st k p =
      .error ⟨st.all, st.log ++ pre.map (fun h4 => (h4, Args.single p)) ++ [(t, Args.single p)]⟩ := by
    rw [typePhase_some _ st k p (pre ++ t :: post) h3]
    exact runSnapWith_inert_throw f env (Args.single p) pre t post h1 h2 st
  exact emitWith_err _ st k p _ hty

/-- Environment for the C8 witness: handler one throws, all others observe. -/
def c8E : Env Nat
  | 1 => HBody.acts [Act.act_throw]
  | _ => HBody.acts []

/-- Witness for C8 at a concrete input: handler zero runs, handler one throws,
handler two and the wildcard handler three are skipped, and the emission
reports the exception with the registry intact. -/
theorem atch_c8_witness :
    emit 1 c8E (⟨[("a", [0, 1, 2]), ("*", [3])], []⟩ : EmitterState Nat) "a" (some 5) =
      .error ⟨[("a", [0, 1, 2]), ("*", [3])],
        [(0, Args.single (some 5)), (1, Args.single (some 5))]⟩ :=
  atch_c8 0 c8E ⟨[("a", [0, 1, 2]), ("*", [3])], []⟩ "a" (some 5) [0] 1 [2]
    (fun h2 hm => by
      rw [List.mem_singleton.mp hm]
      rfl)
    rfl rfl

/-- Snapshot iteration preserves the registry whenever each single invocation
does, whether it ends normally or in a throw. -/
theorem runSnapWith_regOf {P : Type}
    (inv : EmitterState P → HId → Except (EmitterState P) (EmitterState P))
    (hinv : ∀ s h2, regOf (inv s h2) = s.all) :
    ∀ (l : List HId) (st : EmitterState P), regOf (runSnapWith inv st l) = st.all := by
  intro l
  induction l with
  | nil => intro st; rfl
  | cons x rest ih =>
    intro st
    cases hr : inv st x with
    | error e =>
      rw [runSnapWith_cons_err inv st x e rest hr]
      have := hinv st x
      rw [hr] at this
      exact this
    | ok s' =>
      rw [runSnapWith_cons_ok inv st x s' rest hr]
      rw [ih s']
      have := hinv st x
      rw [hr] at this
      exact this

/-- The type phase preserves the registry whenever each invocation does. -/
theorem typePhase_regOf {P : Type}
    (inv : EmitterState P → HId → Args P → Except (EmitterState P) (EmitterState P))
    (hinv : ∀ s h2 a, regOf (inv s h2 a) = s.all)
    (st : EmitterState P) (k : Key) (p : Option P) :
    regOf (typePhase inv st k p) = st.all := by
  cases hk : mapGet st.all k with
  | none => rw [typePhase_none inv st k p hk]; rfl
  | some hs =>
    rw [typePhase_some inv st k p hs hk]
    exact runSnapWith_regOf _ (fun s h2 => hinv s h2 (Args.single p)) hs st

/-- The wildcard phase preserves the registry whenever each invocation does. -/
theorem starPhase_regOf {P : Type}
    (inv : EmitterState P → HId → Args P → Except (EmitterState P) (EmitterState P))
    (hinv : ∀ s h2 a, regOf (inv s h2 a) = s.all)
    (st : EmitterState P) (k : Key) (p : Option P) :
    regOf (starPhase inv st k p) = st.all := by
  cases hw : mapGet st.all "*" with
  | none => rw [starPhase_none inv st k p hw]; rfl
  | some ws =>
    rw [starPhase_some inv st k p ws hw]
    exact runSnapWith_regOf _ (fun s h2 => hinv s h2 (Args.pair k p)) ws st

/-- A whole emission preserves the registry whenever each invocation does. -/
theorem emitWith_regOf {P : Type}
    (inv : EmitterState P → HId → Args P → Except (EmitterState P) (EmitterState P))
    (hinv : ∀ s h2 a, regOf (inv s h2 a) = s.all)
    (st : EmitterState P) (k : Key) (p : Option P) :
    regOf (emitWith inv st k p) = st.all := by
  cases he : typePhase inv st k p with
  | error e =>
    rw [emitWith_err inv st k p e he]
    have := typePhase_regOf inv hinv st k p
    rw [he] at this
    exact this
  | ok s1 =>
    rw [emitWith_ok inv st k p s1 he]
    rw [starPhase_regOf inv hinv s1 k p]
    have := typePhase_regOf inv hinv st k p
    rw [he] at this
    exact this

/-- Running a list of registry-neutral actions preserves the registry,
whenever re-entrant emissions do. -/
theorem runActsWith_regOf {P : Type}
    (emitF : EmitterState P → Key → Option P → Except (EmitterState P) (EmitterState P))
    (hemit : ∀ s k p, regOf (emitF s k p) = s.all) :
    ∀ (l : List (Act P)) (st : EmitterState P), l.all Act.mutFree = true →
      regOf (runActsWith emitF st l) = st.all := by
  intro l
  induction l with
  | nil => intro st _; rfl
  | cons a rest ih =>
    intro st hmut
    rw [List.all_cons, Bool.and_eq_true] at hmut
    cases a with
    | act_on k h2 => simp [Act.mutFree] at hmut
    | act_off k h2 => simp [Act.mutFree] at hmut
    | act_throw => rfl
    | act_emit k p =>
      cases hr : emitF st k p with
      | error e =>
        rw [runActsWith_emit_err emitF st k p e rest hr]
        have := hemit st k p
        rw [hr] at this
        exact this
      | ok s' =>
        rw [runActsWith_emit_ok emitF st k p s' rest hr]
        rw [ih s' hmut.2]
        have := hemit st k p
        rw [hr] at this
        exact this

/-- An invocation in an environment with no registry-mutating handler
preserves the registry, at any fuel. -/
theorem invokeH_regOf {P : Type} :
    ∀ (f : Nat) (env : Env P), NonMutEnv env →
      ∀ (st : EmitterState P) (hid : HId) (args : Args P),
        regOf (invokeH f env st hid args) = st.all := by
  intro f
  induction f with
  | zero => intro env _ st hid args; rfl
  | succ f ih =>
    intro env henv st hid args
    cases hb : env hid with
    | wrap k inner =>
      exfalso
      have := henv hid
      rw [hb] at this
      simp [HBody.mutFree] at this
    | acts l =>
      rw [invokeH_acts f env st hid args l hb]
      have hmut : l.all Act.mutFree = true := by
        have := henv hid
        rw [hb] at this
        simpa [HBody.mutFree] using this
      exact runActsWith_regOf _
        (fun s k p => emitWith_regOf _ (fun s2 h2 a2 => ih env henv s2 h2 a2) s k p)
        l ⟨st.all, st.log ++ [(hid, args)]⟩ hmut

/-- C9: emit never mutates the registry itself: in an environment where no
handler registers or removes handlers, the registry is identical before and
after any emission, whether it returns or throws, including when the emitted
type has no entry at all. -/
theorem atch_c9 {P : Type} (f : Nat) (env : Env P) (st : EmitterState P) (k : Key)
    (p : Option P) (h : NonMutEnv env) :
    regOf (emit f env st k p) = st.all :=
  emitWith_regOf _ (fun s h2 a => invokeH_regOf f env h s h2 a) st k p

/-- Environment for the C9 witness: handler zero re-entrantly emits, every
other handler throws; none of them mutates the registry. -/
def c9E : Env Nat
  | 0 => HBody.acts [Act.act_emit "b" none]
  | _ => HBody.acts [Act.act_throw]

/-- Witness for C9 at a concrete input: an emission running a re-entrant
emitter and a thrower leaves the registry exactly as it was. -/
theorem atch_c9_witness :
    regOf (emit 2 c9E (⟨[("a", [0, 1])], []⟩ : EmitterState Nat) "a" (some 5)) =
      [("a", [0, 1])] :=
  atch_c9 2 c9E ⟨[("a", [0, 1])], []⟩ "a" (some 5)
    (fun i => by
      match i with
      | 0 => rfl
      | _+1 => rfl)

/-- Emitting a key whose list is empty, with no wildcard handlers, returns the
state unchanged, at any fuel. -/
theorem emit_on_emptied {P : Type} (f : Nat) (env : Env P) (st3 : EmitterState P)
    (k : Key) (p : Option P) (hk3 : mapGet st3.all k = some [])
    (hw3 : mapGet st3.all "*" = none) : emit f env st3 k p = .ok st3 := by
  have hty : typePhase (fun s h3 a3 => invokeH f env s h3 a3) st3 k p = .ok st3 := by
    rw [typePhase_some _ st3 k p [] hk3]
    rfl
  calc emit f env st3 k p
      = starPhase (fun s h3 a3 => invokeH f env s h3 a3) st3 k p :=
        emitWith_ok _ st3 k p st3 hty
    _ = .ok st3 := starPhase_none _ st3 k p hw3

/-- Invoking a handler whose only action is a re-entrant emit of a key with an
emptied list and no wildcard handlers: the re-entrant emission finds nothing
to run, so the invocation amounts to its own log entry. -/
theorem invokeH_emit_empty {P : Type} (f : Nat) (env : Env P) (st : EmitterState P)
    (hid : HId) (args : Args P) (k : Key) (p2 : Option P)
    (hb : env hid = HBody.acts [Act.act_emit k p2])
    (hk3 : mapGet st.all k = some []) (hw3 : mapGet st.all "*" = none) :
    invokeH (f+1) env st hid args = .ok ⟨st.all, st.log ++ [(hid, args)]⟩ := by
  rw [invokeH_acts f env st hid args [Act.act_emit k p2] hb]
  have hemit : emit f env (⟨st.all, st.log ++ [(hid, args)]⟩ : EmitterState P) k p2 =
      .ok ⟨st.all, st.log ++ [(hid, args)]⟩ :=
    emit_on_emptied f env ⟨st.all, st.log ++ [(hid, args)]⟩ k p2 hk3 hw3
  exact (runActsWith_emit_ok _ _ k p2 _ [] hemit).trans rfl

/-- Central trace of a once registration: with the wrapper registered alone
under a fresh key, an emission logs the wrapper, removes it from the live
registry, and then invokes the inner handler, provided the inner invocation
behaves as a single log entry from the post-removal state. -/
theorem once_emit_trace {P : Type} (f : Nat) (env : Env P) (st : EmitterState P)
    (k : Key) (wid h2 : HId) (p1 : Option P) (hne : k ≠ "*")
    (hk : mapGet st.all k = none) (hw : mapGet st.all "*" = none)
    (hwrap : env wid = HBody.wrap k h2)
    (hinner : invokeH (f+1) env
        ⟨mapSet (mapSet st.all k [wid]) k [], st.log ++ [(wid, Args.single p1)]⟩
        h2 (Args.single p1) =
      .ok ⟨mapSet (mapSet st.all k [wid]) k [],
        st.log ++ [(wid, Args.single p1), (h2, Args.single p1)]⟩) :
    emit (f+1+1) env (once st k wid) k p1 =
      .ok ⟨mapSet (mapSet st.all k [wid]) k [],
        st.log ++ [(wid, Args.single p1), (h2, Args.single p1)]⟩ := by
  have honce : once st k wid = (⟨mapSet st.all k [wid], st.log⟩ : EmitterState P) := by
    unfold once
    exact on_none st k wid hk
  have hoff : Atch.off (⟨mapSet st.all k [wid], st.log ++ [(wid, Args.single p1)]⟩ : EmitterState P)
      k (some wid) =
      ⟨mapSet (mapSet st.all k [wid]) k [], st.log ++ [(wid, Args.single p1)]⟩ := by
    have hg : mapGet (mapSet st.all k [wid]) k = some ([] ++ wid :: []) := by
      simpa using mapGet_mapSet_self st.all k [wid]
    have := off_first_occ
      (⟨mapSet st.all k [wid], st.log ++ [(wid, Args.single p1)]⟩ : EmitterState P)
      k wid [] [] hg (by simp)
    simpa using this
  have hwid : invokeH (f+1+1) env (⟨mapSet st.all k [wid], st.log⟩ : EmitterState P)
      wid (Args.single p1) =
      .ok ⟨mapSet (mapSet st.all k [wid]) k [],
        st.log ++ [(wid, Args.single p1), (h2, Args.single p1)]⟩ := by
    have hstep1 := invokeH_wrap (f+1) env (⟨mapSet st.all k [wid], st.log⟩ : EmitterState P)
      wid (Args.single p1) k h2 hwrap
    have hstep2 : invokeH (f+1) env
        (Atch.off (⟨mapSet st.all k [wid], st.log ++ [(wid, Args.single p1)]⟩ : EmitterState P)
          k (some wid)) h2 (Args.single p1) =
        .ok ⟨mapSet (mapSet st.all k [wid]) k [],
          st.log ++ [(wid, Args.single p1), (h2, Args.single p1)]⟩ := by
      rw [hoff]
      exact hinner
    exact hstep1.trans hstep2
  have hty : typePhase (fun s h3 a3 => invokeH (f+1+1) env s h3 a3)
      (⟨mapSet st.all k [wid], st.log⟩ : EmitterState P) k p1 =
      .ok ⟨mapSet (mapSet st.all k [wid]) k [],
        st.log ++ [(wid, Args.single p1), (h2, Args.single p1)]⟩ := by
    have hstep := typePhase_some (fun s h3 a3 => invokeH (f+1+1) env s h3 a3)
      (⟨mapSet st.all k [wid], st.log⟩ : EmitterState P) k p1 [wid]
      (mapGet_mapSet_self st.all k [wid])
    rw [hstep]
    have hcons := runSnapWith_cons_ok
      (fun s h3 => invokeH (f+1+1) env s h3 (Args.single p1))
      (⟨mapSet st.all k [wid], st.log⟩ : EmitterState P) wid
      (⟨mapSet (mapSet st.all k [wid]) k [],
        st.log ++ [(wid, Args.single p1), (h2, Args.single p1)]⟩ : EmitterState P)
      [] hwid
    exact hcons.trans rfl
  have hstar : mapGet (mapSet (mapSet st.all k [wid]) k []) "*" = none := by
    rw [mapGet_mapSet_ne (mapSet st.all k [wid]) "*" k [] hne]
    rw [mapGet_mapSet_ne st.all "*" k [wid] hne]
    exact hw
  rw [honce]
  have hfin := emitWith_ok (fun s h3 a3 => invokeH (f+1+1) env s h3 a3)
    (⟨mapSet st.all k [wid], st.log⟩ : EmitterState P) k p1
    (⟨mapSet (mapSet st.all k [wid]) k [],
      st.log ++ [(wid, Args.single p1), (h2, Args.single p1)]⟩ : EmitterState P) hty
  have hsp := starPhase_none (fun s h3 a3 => invokeH (f+1+1) env s h3 a3)
    (⟨mapSet (mapSet st.all k [wid]) k [],
      st.log ++ [(wid, Args.single p1), (h2, Args.single p1)]⟩ : EmitterState P)
    k p1 hstar
  exact hfin.trans hsp

/-- C6: after registering a handler through once (the wrapper wid with inner
handler h2), the inner handler fires on exactly the first emission of the key
and is absent from any later emission, because the wrapper removes itself from
the live registry before invoking the inner handler; in particular a
re-entrant emission of the same key performed by the inner handler itself
finds the list already empty and cannot invoke it again. -/
theorem atch_c6 {P : Type} (f : Nat) (env : Env P) (st : EmitterState P) (k : Key)
    (wid h2 : HId) (p1 p2 : Option P) (hne : k ≠ "*") (_hwh : wid ≠ h2)
    (hk : mapGet st.all k = none) (hw : mapGet st.all "*" = none)
    (hwrap : env wid = HBody.wrap k h2) :
    (env h2 = HBody.acts [] →
      emit (f+1+1) env (once st k wid) k p1 =
        .ok ⟨mapSet (mapSet st.all k [wid]) k [],
          st.log ++ [(wid, Args.single p1), (h2, Args.single p1)]⟩ ∧
      emit (f+1+1) env
          ⟨mapSet (mapSet st.all k [wid]) k [],
            st.log ++ [(wid, Args.single p1), (h2, Args.single p1)]⟩ k p2 =
        .ok ⟨mapSet (mapSet st.all k [wid]) k [],
          st.log ++ [(wid, Args.single p1), (h2, Args.single p1)]⟩) ∧
    (env h2 = HBody.acts [Act.act_emit k p2] →
      emit (f+1+1) env (once st k wid) k p1 =
        .ok ⟨mapSet (mapSet st.all k [wid]) k [],
          st.log ++ [(wid, Args.single p1), (h2, Args.single p1)]⟩) := by
  have hk3 : mapGet (mapSet (mapSet st.all k [wid]) k []) k = some [] :=
    mapGet_mapSet_self (mapSet st.all k [wid]) k []
  have hw3 : mapGet (mapSet (mapSet st.all k [wid]) k []) "*" = none := by
    rw [mapGet_mapSet_ne (mapSet st.all k [wid]) "*" k [] hne]
    rw [mapGet_mapSet_ne st.all "*" k [wid] hne]
    exact hw
  constructor
  · intro ha
    have hinner : invokeH (f+1) env
        ⟨mapSet (mapSet st.all k [wid]) k [], st.log ++ [(wid, Args.single p1)]⟩
        h2 (Args.single p1) =
        .ok ⟨mapSet (mapSet st.all k [wid]) k [],
          st.log ++ [(wid, Args.single p1), (h2, Args.single p1)]⟩ := by
      have := invokeH_inert f env
        ⟨mapSet (mapSet st.all k [wid]) k [], st.log ++ [(wid, Args.single p1)]⟩
        h2 (Args.single p1) ha
      simpa using this
    refine ⟨once_emit_trace f env st k wid h2 p1 hne hk hw hwrap hinner, ?_⟩
    exact emit_on_emptied (f+1+1) env _ k p2 hk3 hw3
  · intro hb
    have hinner : invokeH (f+1) env
        ⟨mapSet (mapSet st.all k [wid]) k [], st.log ++ [(wid, Args.single p1)]⟩
        h2 (Args.single p1) =
        .ok ⟨mapSet (mapSet st.all k [wid]) k [],
          st.log ++ [(wid, Args.single p1), (h2, Args.single p1)]⟩ := by
      have := invokeH_emit_empty f env
        (⟨mapSet (mapSet st.all k [wid]) k [],
          st.log ++ [(wid, Args.single p1)]⟩ : EmitterState P)
        h2 (Args.single p1) k p2 hb hk3 hw3
      simpa using this
    exact once_emit_trace f env st k wid h2 p1 hne hk hw hwrap hinner

/-- Environment for the first C6 witness branch: id ten is the once wrapper
around inner handler three, which does nothing. -/
def c6aE : Env Nat
  | 10 => HBody.wrap "a" 3
  | _ => HBody.acts []

/-- Environment for the second C6 witness branch: id ten is the once wrapper
around inner handler three, which re-entrantly emits the same key. -/
def c6bE : Env Nat
  | 10 => HBody.wrap "a" 3
  | 3 => HBody.acts [Act.act_emit "a" (some 8)]
  | _ => HBody.acts []

/-- Witness for C6 at concrete inputs: the inner handler fires on the first
emission only, a second emission invokes nothing, and a re-entrant emission
from inside the inner handler cannot reach it again. -/
theorem atch_c6_witness :
    (emit 2 c6aE (once (⟨[], []⟩ : EmitterState Nat) "a" 10) "a" (some 7) =
      .ok ⟨[("a", [])], [(10, Args.single (some 7)), (3, Args.single (some 7))]⟩) ∧
    (emit 2 c6aE (⟨[("a", [])], [(10, Args.single (some 7)), (3, Args.single (some 7))]⟩ :
        EmitterState Nat) "a" (some 8) =
      .ok ⟨[("a", [])], [(10, Args.single (some 7)), (3, Args.single (some 7))]⟩) ∧
    (emit 2 c6bE (once (⟨[], []⟩ : EmitterState Nat) "a" 10) "a" (some 7) =
      .ok ⟨[("a", [])], [(10, Args.single (some 7)), (3, Args.single (some 7))]⟩) := by
  have ha := (atch_c6 0 c6aE ⟨[], []⟩ "a" 10 3 (some 7) (some 8)
    (by decide) (by decide) rfl rfl rfl).1 rfl
  have hb := (atch_c6 0 c6bE ⟨[], []⟩ "a" 10 3 (some 7) (some 8)
    (by decide) (by decide) rfl rfl rfl).2 rfl
  exact ⟨ha.1, ha.2, hb⟩

/-- Action step: registering a handler threads the updated state on. -/
theorem runActsWith_on {P : Type}
    (emitF : EmitterState P → Key → Option P → Except (EmitterState P) (EmitterState P))
    (st : EmitterState P) (k : Key) (h2 : HId) (rest : List (Act P)) :
    runActsWith emitF st (Act.act_on k h2 :: rest) = runActsWith emitF (Atch.on' st k h2) rest := rfl

/-- Action step: removing a handler threads the updated state on. -/
theorem runActsWith_off {P : Type}
    (emitF : EmitterState P → Key → Option P → Except (EmitterState P) (EmitterState P))
    (st : EmitterState P) (k : Key) (ho : Option HId) (rest : List (Act P)) :
    runActsWith emitF st (Act.act_off k ho :: rest) = runActsWith emitF (Atch.off st k ho) rest := rfl

/-- Action step: an exhausted action list returns the state. -/
theorem runActsWith_nil {P : Type}
    (emitF : EmitterState P → Key → Option P → Except (EmitterState P) (EmitterState P))
    (st : EmitterState P) : runActsWith emitF st [] = .ok st := rfl

/-- Environment for the C2 counterexample: handler zero registers handler one
under the star key during its own invocation. -/
def c2E : Env Nat
  | 0 => HBody.acts [Act.act_on "*" 1]
  | _ => HBody.acts []

/-- C2 counterexample: the registry starts with no wildcard entry at all, yet
the wildcard handler that handler zero registers during the emission is
invoked within that same emission (the wildcard snapshot is taken only after
the type-specific phase), contradicting the claim that handlers added during
an emission never join the in-flight dispatch. -/
theorem atch_c2_counterexample :
    mapGet (⟨[("a", [0])], []⟩ : EmitterState Nat).all "*" = none ∧
    (1, Args.pair "a" (some 5)) ∈
      logOf (emit 2 c2E (⟨[("a", [0])], []⟩ : EmitterState Nat) "a" (some 5)) := by
  exact ⟨rfl, by decide⟩

/-- C2 amended: each phase of emit iterates over a shallow copy taken just
before that phase begins: the type-specific list is copied before any handler
runs (so a handler registered under the emitted key or removed from it during
the type-specific phase neither joins nor leaves the in-flight dispatch, while
the live registry does change), and the wildcard list is copied after the
type-specific phase; a once handler removing itself still mutates the live
registry, so later emissions do not invoke it. -/
theorem atch_c2_amended {P : Type} (f : Nat) (env : Env P) (st st2 : EmitterState P)
    (k k2 : Key) (p p1 p2 : Option P) (a b c wid h2 : HId)
    (hne : k ≠ "*") (hab : a ≠ b)
    (hk : mapGet st.all k = some [a, b]) (hw : mapGet st.all "*" = none)
    (henva : env a = HBody.acts [Act.act_on k c, Act.act_off k (some b)])
    (henvb : env b = HBody.acts []) :
    emit (f+1) env st k p =
      .ok ⟨mapSet st.all k [a, c], st.log ++ [(a, Args.single p), (b, Args.single p)]⟩ ∧
    (k2 ≠ "*" → mapGet st2.all k2 = none → mapGet st2.all "*" = none →
      env wid = HBody.wrap k2 h2 → env h2 = HBody.acts [] →
      emit (f+1+1) env (once st2 k2 wid) k2 p1 =
        .ok ⟨mapSet (mapSet st2.all k2 [wid]) k2 [],
          st2.log ++ [(wid, Args.single p1), (h2, Args.single p1)]⟩ ∧
      emit (f+1+1) env
          ⟨mapSet (mapSet st2.all k2 [wid]) k2 [],
            st2.log ++ [(wid, Args.single p1), (h2, Args.single p1)]⟩ k2 p2 =
        .ok ⟨mapSet (mapSet st2.all k2 [wid]) k2 [],
          st2.log ++ [(wid, Args.single p1), (h2, Args.single p1)]⟩) := by
  constructor
  · have hA : invokeH (f+1) env st a (Args.single p) =
        .ok ⟨mapSet st.all k [a, c], st.log ++ [(a, Args.single p)]⟩ := by
      rw [invokeH_acts f env st a (Args.single p)
        [Act.act_on k c, Act.act_off k (some b)] henva]
      rw [runActsWith_on, runActsWith_off, runActsWith_nil]
      have hon := on_some (⟨st.all, st.log ++ [(a, Args.single p)]⟩ : EmitterState P) k c [a, b] hk
      rw [hon]
      simp only [List.cons_append, List.nil_append]
      have hoff := off_first_occ
        (⟨mapSet st.all k [a, b, c], st.log ++ [(a, Args.single p)]⟩ : EmitterState P) k b [a] [c]
        (by simpa using mapGet_mapSet_self st.all k [a, b, c])
        (by
          intro hmem
          exact (Ne.symm hab) (List.mem_singleton.mp hmem))
      rw [hoff]
      simp [mapSet_mapSet]
    have hB : invokeH (f+1) env
        (⟨mapSet st.all k [a, c], st.log ++ [(a, Args.single p)]⟩ : EmitterState P)
        b (Args.single p) =
        .ok ⟨mapSet st.all k [a, c], st.log ++ [(a, Args.single p), (b, Args.single p)]⟩ := by
      have := invokeH_inert f env
        (⟨mapSet st.all k [a, c], st.log ++ [(a, Args.single p)]⟩ : EmitterState P)
        b (Args.single p) henvb
      simpa using this
    have hty : typePhase (fun s h3 a3 => invokeH (f+1) env s h3 a3) st k p =
        .ok ⟨mapSet st.all k [a, c], st.log ++ [(a, Args.single p), (b, Args.single p)]⟩ := by
      have hstep := typePhase_some (fun s h3 a3 => invokeH (f+1) env s h3 a3) st k p [a, b] hk
      rw [hstep]
      have hc1 := runSnapWith_cons_ok (fun s h3 => invokeH (f+1) env s h3 (Args.single p))
        st a (⟨mapSet st.all k [a, c], st.log ++ [(a, Args.single p)]⟩ : EmitterState P) [b] hA
      have hc2 := runSnapWith_cons_ok (fun s h3 => invokeH (f+1) env s h3 (Args.single p))
        (⟨mapSet st.all k [a, c], st.log ++ [(a, Args.single p)]⟩ : EmitterState P) b
        (⟨mapSet st.all k [a, c],
          st.log ++ [(a, Args.single p), (b, Args.single p)]⟩ : EmitterState P) [] hB
      exact hc1.trans (hc2.trans rfl)
    have hstar : mapGet (mapSet st.all k [a, c]) "*" = none := by
      rw [mapGet_mapSet_ne st.all "*" k [a, c] hne]
      exact hw
    have hfin := emitWith_ok (fun s h3 a3 => invokeH (f+1) env s h3 a3) st k p
      (⟨mapSet st.all k [a, c],
        st.log ++ [(a, Args.single p), (b, Args.single p)]⟩ : EmitterState P) hty
    have hsp := starPhase_none (fun s h3 a3 => invokeH (f+1) env s h3 a3)
      (⟨mapSet st.all k [a, c],
        st.log ++ [(a, Args.single p), (b, Args.single p)]⟩ : EmitterState P) k p hstar
    exact hfin.trans hsp
  · intro hk2 hn2 hw2 hwrap2 hh2
    have hinner : invokeH (f+1) env
        ⟨mapSet (mapSet st2.all k2 [wid]) k2 [], st2.log ++ [(wid, Args.single p1)]⟩
        h2 (Args.single p1) =
        .ok ⟨mapSet (mapSet st2.all k2 [wid]) k2 [],
          st2.log ++ [(wid, Args.single p1), (h2, Args.single p1)]⟩ := by
      have := invokeH_inert f env
        (⟨mapSet (mapSet st2.all k2 [wid]) k2 [],
          st2.log ++ [(wid, Args.single p1)]⟩ : EmitterState P)
        h2 (Args.single p1) hh2
      simpa using this
    refine ⟨once_emit_trace f env st2 k2 wid h2 p1 hk2 hn2 hw2 hwrap2 hinner, ?_⟩
    have hk3 : mapGet (mapSet (mapSet st2.all k2 [wid]) k2 []) k2 = some [] :=
      mapGet_mapSet_self (mapSet st2.all k2 [wid]) k2 []
    have hw3 : mapGet (mapSet (mapSet st2.all k2 [wid]) k2 []) "*" = none := by
      rw [mapGet_mapSet_ne (mapSet st2.all k2 [wid]) "*" k2 [] hk2]
      rw [mapGet_mapSet_ne st2.all "*" k2 [wid] hk2]
      exact hw2
    exact emit_on_emptied (f+1+1) env _ k2 p2 hk3 hw3

/-- Environment for the C2 witness: handler zero registers handler two and
removes handler one during its own invocation; id twenty is a once wrapper
around the inert handler twenty-one. -/
def c2wE : Env Nat
  | 0 => HBody.acts [Act.act_on "a" 2, Act.act_off "a" (some 1)]
  | 20 => HBody.wrap "b" 21
  | _ => HBody.acts []

/-- Witness for C2 amended at concrete inputs: handler one, removed during
the emission, still fires from the frozen snapshot while handler two, added
during the emission, does not, and the registry ends as mutated; the once
wrapper self-removal persists so a second emission invokes nothing. -/
theorem atch_c2_witness :
    (emit 1 c2wE (⟨[("a", [0, 1])], []⟩ : EmitterState Nat) "a" (some 5) =
      .ok ⟨[("a", [0, 2])], [(0, Args.single (some 5)), (1, Args.single (some 5))]⟩) ∧
    (emit 2 c2wE (once (⟨[], []⟩ : EmitterState Nat) "b" 20) "b" (some 6) =
      .ok ⟨[("b", [])], [(20, Args.single (some 6)), (21, Args.single (some 6))]⟩) ∧
    (emit 2 c2wE (⟨[("b", [])],
        [(20, Args.single (some 6)), (21, Args.single (some 6))]⟩ : EmitterState Nat) "b" (some 7) =
      .ok ⟨[("b", [])], [(20, Args.single (some 6)), (21, Args.single (some 6))]⟩) := by
  have h := atch_c2_amended 0 c2wE ⟨[("a", [0, 1])], []⟩ ⟨[], []⟩ "a" "b"
    (some 5) (some 6) (some 7) 0 1 2 20 21 (by decide) (by decide) rfl rfl rfl rfl
  have hrest := h.2 (by decide) rfl rfl rfl rfl
  exact ⟨h.1, hrest.1, hrest.2⟩

end Atch
